import Mathlib

/-!
Shallow embedding of the `workty` worktree manager (Rust) in Lean 4,
covering the worktree registry (parsing, lookup, slug derivation), the
status aggregator, the dashboard sort, and the `rm`/`clean` lifecycle
operations, together with proofs of the specification's claims about them.

Paths (`std::path::PathBuf`) are modelled as `String`; the external git
backend (`git2` library calls, spawned `git` processes, `stdin` terminal
detection, interactive confirmation) is modelled as explicit oracle data
threaded through each operation, with `Option` standing for fallible calls.
-/

namespace Workty

/-- Split a character list at every occurrence of `sep` (the pieces, in
order, separators dropped). -/
def splitChars (sep : Char) : List Char → List (List Char)
  | [] => [[]]
  | c :: rest =>
    let r := splitChars sep rest
    if c = sep then [] :: r
    else
      match r with
      | [] => [[c]]
      | p :: ps => (c :: p) :: ps

/-- Final path segment of a `/`-separated path, modelling Rust's
`Path::file_name().and_then(|s| s.to_str())` for ordinary paths:
the last nonempty component, `none` when there is none. -/
def fileName (p : String) : Option String :=
  (((splitChars '/' p.data).filter (fun s => s ≠ [])).getLast?).map
    (fun l => ⟨l⟩)

/-- From `src/worktree.rs`: `pub struct Worktree`. -/
structure Worktree where
  path : String
  head : String
  branch : Option String
  branch_short : Option String
  detached : Bool
  locked : Bool
  prunable : Bool
deriving DecidableEq, Repr

/-- From `src/worktree.rs`: `Worktree::name` — `branch_short` if present, else the
final path segment, else `"unknown"`. -/
def Worktree.name (wt : Worktree) : String :=
  match wt.branch_short with
  | some b => b
  | none =>
    match fileName wt.path with
    | some s => s
    | none => "unknown"

/-- From `src/worktree.rs`: `WorktreeBuilder` (all fields defaulted). -/
structure WorktreeBuilder where
  path : Option String := none
  head : Option String := none
  branch : Option String := none
  detached : Bool := false
  locked : Bool := false
  prunable : Bool := false
  bare : Bool := false
deriving DecidableEq, Repr

/-- Rust expression `branch.strip_prefix("refs/heads/").unwrap_or(branch)`:
drop the leading reference-namespace characters when present. -/
def stripHeads (b : String) : String :=
  if b.data.take 11 = "refs/heads/".data then ⟨b.data.drop 11⟩ else b

/-- From `src/worktree.rs`: `WorktreeBuilder::build` — requires the `worktree`
(path) key, drops `bare` records, defaults `head` to the empty string, and
derives `branch_short` by stripping the `refs/heads/` namespace. -/
def WorktreeBuilder.build (b : WorktreeBuilder) : Option Worktree :=
  match b.path with
  | none => none
  | some path =>
    if b.bare then none
    else
      some { path := path
             head := b.head.getD ""
             branch := b.branch
             branch_short := b.branch.map stripHeads
             detached := b.detached
             locked := b.locked
             prunable := b.prunable }

/-- Rust `str::split_once(' ')`: the text before the first space and the
text after it, `none` when the line contains no space. -/
def splitOnce (line : String) : Option (String × String) :=
  match line.data.dropWhile (fun c => c ≠ ' ') with
  | [] => none
  | _ :: rest => some (⟨line.data.takeWhile (fun c => c ≠ ' ')⟩, ⟨rest⟩)

/-- One `key value` line applied to the current builder
(`src/worktree.rs` lines 44-64): recognized keys update the builder,
unrecognized lines leave it unchanged. -/
def applyLine (b : WorktreeBuilder) (line : String) : WorktreeBuilder :=
  match splitOnce line with
  | some (k, v) =>
    if k = "worktree" then { b with path := some v }
    else if k = "HEAD" then { b with head := some v }
    else if k = "branch" then { b with branch := some v }
    else if k = "detached" then { b with detached := true }
    else if k = "locked" then { b with locked := true }
    else if k = "prunable" then { b with prunable := true }
    else b
  | none =>
    if line = "detached" then { b with detached := true }
    else if line = "locked" then { b with locked := true }
    else if line = "prunable" then { b with prunable := true }
    else if line = "bare" then { b with bare := true }
    else b

/-- Parser state: worktrees emitted so far and the in-progress record's
builder (`current`), absent between records. -/
abbrev ParseState := List Worktree × Option WorktreeBuilder

/-- One line of the porcelain listing applied to the parser state
(the body of the `for` loop in `parse_worktree_list`): a blank line
flushes the current builder, any other line updates it (creating it on
demand, `current.get_or_insert_with`). -/
def parseStep (st : ParseState) (line : String) : ParseState :=
  if line = "" then
    match st.2 with
    | some b => (st.1 ++ b.build.toList, none)
    | none => (st.1, none)
  else
    (st.1, some (applyLine (st.2.getD {}) line))

/-- From `src/worktree.rs`: `parse_worktree_list`, over the input's lines; a
trailing unterminated record is flushed at end of input. -/
def parse_worktree_list (lines : List String) : List Worktree :=
  let st := lines.foldl parseStep ([], none)
  match st.2 with
  | some b => st.1 ++ b.build.toList
  | none => st.1

/-- From `src/worktree.rs`: `find_worktree` — first worktree whose `branch_short`
or final path segment equals `name`. -/
def find_worktree (worktrees : List Worktree) (name : String) : Option Worktree :=
  worktrees.find? (fun wt =>
    wt.branch_short = some name ∨ fileName wt.path = some name)

/-- Character class kept by `slug_from_branch`: alphanumeric, `-`, `_`. -/
def keptChar (c : Char) : Bool :=
  c.isAlphanum || c = '-' || c = '_'

/-- The per-character map of `slug_from_branch`. -/
def slugChar (c : Char) : Char :=
  if keptChar c then c else '-'

/-- Rust `str::trim_matches('-')`: remove all leading and trailing `-`. -/
def trimDash (l : List Char) : List Char :=
  ((l.dropWhile (fun c => c = '-')).reverse.dropWhile (fun c => c = '-')).reverse

/-- From `src/worktree.rs`: `slug_from_branch` — map every character outside
the kept class to `-`, then trim `-` from both ends. -/
def slug_from_branch (s : String) : String :=
  ⟨trimDash (s.data.map slugChar)⟩

/-! ## Status aggregator (`src/status.rs`)

The `git2` library is modelled as oracle data: a `Git2Repo` records the
outcome of each query the code performs against an opened repository, with
`Option` standing for `Result` (`none` = `Err`). -/

/-- Result of `branch.upstream()` when configured: the upstream's name
(`.name().ok().flatten()`) and tip (`get().target()`). -/
structure UpstreamRef where
  name : Option String
  target : Option Nat
deriving DecidableEq, Repr

/-- Result of `repo.head()` when it succeeds. -/
structure HeadRef where
  isBranch : Bool
  shorthand : Option String
  target : Option Nat
deriving DecidableEq, Repr

/-- An opened `git2::Repository`, as the outcomes of the queries
`src/status.rs` performs on it: the statuses-list length (dirty entries),
the `HEAD` reference, each local branch's configured upstream, and the
`graph_ahead_behind` distances between two commit ids. -/
structure Git2Repo where
  statuses : Option Nat
  head : Option HeadRef
  upstreamOf : String → Option UpstreamRef
  graphAheadBehind : Nat → Nat → Option (Nat × Nat)

/-- The process environment seen by the status aggregator:
`git2::Repository::open(path)`. -/
structure GitEnv where
  openRepo : String → Option Git2Repo

/-- From `src/status.rs`: `pub struct WorktreeStatus` (all fields defaulted). -/
structure WorktreeStatus where
  dirty_count : Nat := 0
  upstream : Option String := none
  ahead : Option Nat := none
  behind : Option Nat := none
deriving DecidableEq, Repr

/-- Method `WorktreeStatus::is_dirty`. -/
def WorktreeStatus.is_dirty (s : WorktreeStatus) : Bool :=
  s.dirty_count > 0

/-- From `src/status.rs`: `get_dirty_count` — the statuses-list length, `0` on a
query error. -/
def get_dirty_count (repo : Git2Repo) : Nat :=
  match repo.statuses with
  | some n => n
  | none => 0

/-- From `src/status.rs`: `get_ahead_behind` — detached worktrees short-circuit;
every failing query degrades to `(none, none, none)`; a missing local or
upstream tip keeps the upstream name but drops the counts. -/
def get_ahead_behind (repo : Git2Repo) (worktree : Worktree) :
    Option String × Option Nat × Option Nat :=
  if worktree.detached then (none, none, none)
  else
    match repo.head with
    | none => (none, none, none)
    | some head =>
      if !head.isBranch then (none, none, none)
      else
        match head.shorthand with
        | none => (none, none, none)
        | some branch_name =>
          match repo.upstreamOf branch_name with
          | none => (none, none, none)
          | some upstream =>
            let upstream_name := upstream.name
            match head.target with
            | none => (upstream_name, none, none)
            | some local_oid =>
              match upstream.target with
              | none => (upstream_name, none, none)
              | some upstream_oid =>
                match repo.graphAheadBehind local_oid upstream_oid with
                | some (a, b) => (upstream_name, some a, some b)
                | none => (upstream_name, none, none)

/-- From `src/status.rs`: `get_worktree_status` — open the worktree's repository
once; on failure return the default status, otherwise assemble dirty count
and ahead/behind data. -/
def get_worktree_status (env : GitEnv) (worktree : Worktree) : WorktreeStatus :=
  match env.openRepo worktree.path with
  | none => {}
  | some wt_repo =>
    let dirty_count := get_dirty_count wt_repo
    let (upstream, ahead, behind) := get_ahead_behind wt_repo worktree
    { dirty_count, upstream, ahead, behind }

/-- From `src/status.rs`: `is_worktree_dirty` — `false` when the worktree's path
cannot be opened as a repository. -/
def is_worktree_dirty (env : GitEnv) (worktree : Worktree) : Bool :=
  match env.openRepo worktree.path with
  | some repo => get_dirty_count repo > 0
  | none => false

/-! ## Dashboard sort (`src/commands/list.rs`) -/

/-- Rust `char` comparison: by code point. -/
def charCmp (a b : Char) : Ordering :=
  if a.toNat < b.toNat then .lt else if a.toNat = b.toNat then .eq else .gt

/-- Rust `str::cmp`: lexicographic comparison (byte order coincides with
code-point order for UTF-8). -/
def strCmpL : List Char → List Char → Ordering
  | [], [] => .eq
  | [], _ :: _ => .lt
  | _ :: _, [] => .gt
  | a :: as_, b :: bs =>
    match charCmp a b with
    | .eq => strCmpL as_ bs
    | o => o

/-- String comparison on the underlying character lists. -/
def strCmp (a b : String) : Ordering :=
  strCmpL a.data b.data

/-- Rust `bool::cmp`: `false < true`. -/
def boolCmp (a b : Bool) : Ordering :=
  match a, b with
  | false, false => .eq
  | false, true => .lt
  | true, false => .gt
  | true, true => .eq

/-- The comparator of `sort_worktrees` (`src/commands/list.rs` lines 26-42):
current-directory worktree first, then dirty before clean, then name
ascending. -/
def cmpWorktree (current_path : String) (a b : Worktree × WorktreeStatus) :
    Ordering :=
  let a_is_current : Bool := a.1.path == current_path
  let b_is_current : Bool := b.1.path == current_path
  if a_is_current ≠ b_is_current then boolCmp b_is_current a_is_current
  else
    let a_dirty : Bool := a.2.is_dirty
    let b_dirty : Bool := b.2.is_dirty
    if a_dirty ≠ b_dirty then boolCmp b_dirty a_dirty
    else strCmp a.1.name b.1.name

/-- From `src/commands/list.rs`: `sort_worktrees` — a stable sort by
`cmpWorktree` (Rust `sort_by` sorts ascending per the comparator). -/
def sort_worktrees (worktrees : List (Worktree × WorktreeStatus))
    (current_path : String) : List (Worktree × WorktreeStatus) :=
  worktrees.mergeSort (fun a b => cmpWorktree current_path a b ≠ .gt)

/-! ## Batch clean (`src/commands/clean.rs`) -/

/-- From `src/commands/clean.rs`: `pub struct CleanOptions`. -/
structure CleanOptions where
  merged : Bool
  gone : Bool
  stale_days : Option Nat
  dry_run : Bool
  yes : Bool
deriving DecidableEq, Repr

/-- Modelled from the spec: the richer status variant used by `clean`
(§9: "gone upstream" and "stale" filters). `clean.rs` reads
`status.upstream_gone` and `status.last_commit_time` (age in seconds),
fields of a `WorktreeStatus` variant not present under `src/`. -/
structure CleanStatus where
  upstream_gone : Bool
  last_commit_time : Option Int
deriving DecidableEq, Repr

/-- Environment of one `clean` run: the registry snapshot, process state,
and the backend oracles the command queries. `base` is `Config::load(repo)?.base`
(modelled from the spec: `config.rs` is not under `src/`; §3 Configuration's
`base` branch name), `isMerged branch base` is `repo.is_merged(branch, base)`
(`Result<bool>` as `Option Bool`; modelled from the spec's §4.3 reachable-from
check — the method is not under `src/`), `allStatuses` the result of
`get_all_statuses` in the richer variant, `removeOk path` whether
`git worktree remove path` exits successfully, `stdinTerminal` the
`stdin().is_terminal()` probe and `userConfirm` the interactive prompt's
answer. -/
structure CleanEnv where
  worktrees : List Worktree
  currentPath : String
  repoRoot : String
  base : String
  isMerged : String → String → Option Bool
  allStatuses : List (Worktree × CleanStatus)
  git : GitEnv
  stdinTerminal : Bool
  userConfirm : Bool
  removeOk : String → Bool

/-- The `get_status` closure of `clean.rs`: statuses are computed only when
the `gone` or `stale` filter needs them, then looked up by path. -/
def clean_get_status (env : CleanEnv) (opts : CleanOptions) (wt : Worktree) :
    Option CleanStatus :=
  if opts.gone || opts.stale_days.isSome then
    (env.allStatuses.find? (fun p => p.1.path = wt.path)).map (fun p => p.2)
  else none

/-- The candidate filter of `clean.rs` lines 44-99: the four unconditional
exclusions (current directory, main worktree, detached, base branch), the
no-filter default, then the `merged` / `gone` / `stale` filters in order. -/
def clean_filter (env : CleanEnv) (opts : CleanOptions) (wt : Worktree) : Bool :=
  if wt.path = env.currentPath then false
  else if wt.path = env.repoRoot then false
  else if wt.detached then false
  else if (match wt.branch_short with
           | some b => b == env.base
           | none => false) then false
  else if !(opts.merged || opts.gone || opts.stale_days.isSome) then false
  else if opts.merged
          && (match wt.branch_short with
              | some b => env.isMerged b env.base == some true
              | none => false) then true
  else if opts.gone
          && (match clean_get_status env opts wt with
              | some st => st.upstream_gone
              | none => false) then true
  else
    match opts.stale_days with
    | some days =>
      match clean_get_status env opts wt with
      | some st =>
        match st.last_commit_time with
        | some seconds => seconds > (days : Int) * 24 * 60 * 60
        | none => false
      | none => false
    | none => false

/-- The candidate set of one `clean` run. -/
def clean_candidates (env : CleanEnv) (opts : CleanOptions) : List Worktree :=
  env.worktrees.filter (fun wt => clean_filter env opts wt)

/-- Outcome of `clean::execute`: `shown` is the candidate list printed under
"Worktrees to remove:"; `needYes` is the `exit(1)` taken when stdin is
non-interactive and `--yes` was not given; `done` carries the final
"Cleaned up N worktree(s)" count. -/
inductive CleanResult where
  | noCandidates
  | dryRun (shown : List Worktree)
  | allDirty (shown : List Worktree)
  | aborted (shown : List Worktree)
  | needYes (shown : List Worktree)
  | done (shown : List Worktree) (removed : Nat)
deriving DecidableEq, Repr

/-- From `src/commands/clean.rs`: `execute` — compute candidates, display them,
stop on dry-run, skip dirty candidates, gate on confirmation, then remove
one at a time counting backend successes (a per-item failure is reported
and does not stop the batch). -/
def clean_execute (env : CleanEnv) (opts : CleanOptions) : CleanResult :=
  let candidates := clean_candidates env opts
  if candidates = [] then .noCandidates
  else if opts.dry_run then .dryRun candidates
  else
    let cleanCands := candidates.filter (fun wt => !is_worktree_dirty env.git wt)
    if cleanCands = [] then .allDirty candidates
    else if !opts.yes && env.stdinTerminal then
      if env.userConfirm then
        .done candidates (cleanCands.countP (fun wt => env.removeOk wt.path))
      else .aborted candidates
    else if !opts.yes then .needYes candidates
    else .done candidates (cleanCands.countP (fun wt => env.removeOk wt.path))

/-! ## Single remove (`src/commands/rm.rs`) -/

/-- From `src/commands/rm.rs`: `pub struct RmOptions`. -/
structure RmOptions where
  name : String
  force : Bool
  delete_branch : Bool
  yes : Bool
deriving DecidableEq, Repr

/-- Environment of one `rm` run: registry snapshot, process state and
backend oracles (`removeOk path` = `git worktree remove` success,
`deleteBranchOk branch` = `git branch -d` success). -/
structure RmEnv where
  worktrees : List Worktree
  currentPath : String
  repoRoot : String
  git : GitEnv
  stdinTerminal : Bool
  userConfirm : Bool
  removeOk : String → Bool
  deleteBranchOk : String → Bool

/-- Outcome of `rm::execute`. `exitCurrent`, `exitMain`, `exitDirty` and
`aborted` are the `exit(1)` paths taken before any removal; `removed`
records whether the best-effort branch deletion was attempted and
succeeded. -/
inductive RmResult where
  | notFound
  | exitCurrent
  | exitMain
  | exitDirty
  | aborted
  | removeFailed
  | removed (branch_deleted : Option Bool)
deriving DecidableEq, Repr

/-- From `src/commands/rm.rs`: `execute` — lookup, structural protections
(current / main worktree), dirty-guard unless forced, confirmation prompt
only when `--yes` is absent and stdin is a terminal, then the backend
removal and optional best-effort branch deletion. -/
def rm_execute (env : RmEnv) (opts : RmOptions) : RmResult :=
  match find_worktree env.worktrees opts.name with
  | none => .notFound
  | some wt =>
    if wt.path = env.currentPath then .exitCurrent
    else if wt.path = env.repoRoot then .exitMain
    else
      let is_dirty := is_worktree_dirty env.git wt
      if is_dirty && !opts.force then .exitDirty
      else if !opts.yes && env.stdinTerminal && !env.userConfirm then .aborted
      else if !(env.removeOk wt.path) then .removeFailed
      else
        .removed
          (if opts.delete_branch then
            match wt.branch_short with
            | some b => some (env.deleteBranchOk b)
            | none => none
          else none)

/-- The set a `clean` run actually removes (derived vocabulary): the
non-dirty candidates on which the backend removal succeeds. -/
def clean_removed_set (env : CleanEnv) (opts : CleanOptions) : List Worktree :=
  ((clean_candidates env opts).filter (fun wt => !is_worktree_dirty env.git wt)).filter
    (fun wt => env.removeOk wt.path)

/-! ## Shared example fixtures -/

/-- The main worktree of the example repository at `/repo`. -/
def wtMain : Worktree :=
  ⟨"/repo", "h0", some "refs/heads/main", some "main", false, false, false⟩

/-- An ordinary feature worktree. -/
def wtFeatX : Worktree :=
  ⟨"/ws/feat-x", "h1", some "refs/heads/feat/x", some "feat/x", false, false, false⟩

/-- A detached example worktree. -/
def wtDetached : Worktree := ⟨"/ws/det", "h2", none, none, true, false, false⟩

/-- Example feature worktrees for the batch-clean scenario. -/
def wtA : Worktree :=
  ⟨"/ws/a", "ha", some "refs/heads/feat/a", some "feat/a", false, false, false⟩

/-- Second feature worktree of the batch-clean scenario (the dirty one). -/
def wtB : Worktree :=
  ⟨"/ws/b", "hb", some "refs/heads/feat/b", some "feat/b", false, false, false⟩

/-- Third feature worktree of the batch-clean scenario. -/
def wtC : Worktree :=
  ⟨"/ws/c", "hc", some "refs/heads/feat/c", some "feat/c", false, false, false⟩

/-- A git environment in which no path can be opened as a repository. -/
def egGitNone : GitEnv := ⟨fun _ => none⟩

/-- An opened repository whose every query fails. -/
def egRepoErr : Git2Repo :=
  { statuses := none, head := none, upstreamOf := fun _ => none
    graphAheadBehind := fun _ _ => none }

/-- A git environment in which every path opens to `egRepoErr`. -/
def egGitErr : GitEnv := ⟨fun _ => some egRepoErr⟩

/-- An opened repository with two dirty entries. -/
def egRepoDirty : Git2Repo :=
  { statuses := some 2, head := none, upstreamOf := fun _ => none
    graphAheadBehind := fun _ _ => none }

/-- A git environment in which only `/ws/b` opens (as a dirty repository). -/
def egGitB : GitEnv := ⟨fun p => if p = "/ws/b" then some egRepoDirty else none⟩

/-- Example clean environment: two worktrees, run from the main worktree,
every branch merged, backend removal always succeeds. -/
def egCleanEnv : CleanEnv :=
  { worktrees := [wtMain, wtFeatX]
    currentPath := "/repo"
    repoRoot := "/repo"
    base := "main"
    isMerged := fun _ _ => some true
    allStatuses := []
    git := egGitNone
    stdinTerminal := false
    userConfirm := false
    removeOk := fun _ => true }

/-- Clean options: `--merged --yes`. -/
def egMergedOpts : CleanOptions := ⟨true, false, none, false, true⟩

/-- Clean options: `--merged` without `--yes`. -/
def egMergedOptsNoYes : CleanOptions := ⟨true, false, none, false, false⟩

/-- Clean environment with candidates `wtA`, `wtB`, `wtC`, of which `wtB`
is dirty. -/
def egCleanEnv3 : CleanEnv :=
  { worktrees := [wtMain, wtA, wtB, wtC]
    currentPath := "/repo"
    repoRoot := "/repo"
    base := "main"
    isMerged := fun _ _ => some true
    allStatuses := []
    git := egGitB
    stdinTerminal := false
    userConfirm := false
    removeOk := fun _ => true }

/-- Example rm environment: non-interactive stdin, backend removal and
branch deletion succeed. -/
def egRmEnv : RmEnv :=
  { worktrees := [wtMain, wtFeatX]
    currentPath := "/repo"
    repoRoot := "/repo"
    git := egGitNone
    stdinTerminal := false
    userConfirm := false
    removeOk := fun _ => true
    deleteBranchOk := fun _ => true }

/-- Rm options naming `feat/x`, with `--yes`. -/
def egRmOpts : RmOptions := ⟨"feat/x", false, false, true⟩

/-- Rm options naming `feat/x`, without `--yes`. -/
def egRmOptsNoYes : RmOptions := ⟨"feat/x", false, false, false⟩

/-! ## Claims -/

/-- C4: for every registry snapshot, `clean` with no filter flag set
(`merged = false`, `gone = false`, no stale threshold) yields an empty
candidate set, whatever other worktrees exist. -/
theorem clean_no_filter_empty (env : CleanEnv) (dry yes : Bool) :
    clean_candidates env ⟨false, false, none, dry, yes⟩ = [] := by
  unfold clean_candidates
  rw [List.filter_eq_nil_iff]
  intro wt _
  simp [clean_filter]

/-- C1: a worktree in the clean-candidate set is never the current working
directory's worktree, never the main worktree, never detached, and never on
the configured base branch, for every snapshot and filter combination. -/
theorem clean_candidate_safety (env : CleanEnv) (opts : CleanOptions)
    (wt : Worktree) (h : wt ∈ clean_candidates env opts) :
    wt.path ≠ env.currentPath ∧ wt.path ≠ env.repoRoot ∧
      wt.detached = false ∧ wt.branch_short ≠ some env.base := by
  simp only [clean_candidates] at h
  have hf : clean_filter env opts wt = true := (List.mem_filter.mp h).2
  refine ⟨fun hc => ?_, fun hc => ?_, ?_, fun hc => ?_⟩
  · simp [clean_filter, hc] at hf
  · simp [clean_filter, hc] at hf
  · cases hd : wt.detached
    · rfl
    · simp [clean_filter, hd] at hf
  · simp [clean_filter, hc] at hf

/-- Witness for C1 at a concrete snapshot with a nonempty candidate set. -/
theorem clean_candidate_safety_witness :
    wtFeatX ∈ clean_candidates egCleanEnv egMergedOpts ∧
      (wtFeatX.path ≠ egCleanEnv.currentPath ∧
        wtFeatX.path ≠ egCleanEnv.repoRoot ∧
        wtFeatX.detached = false ∧
        wtFeatX.branch_short ≠ some egCleanEnv.base) :=
  ⟨by decide, clean_candidate_safety egCleanEnv egMergedOpts wtFeatX (by decide)⟩

/-- C7: the status aggregator never fails outward — an unopenable worktree
repository yields the default status, a detached worktree short-circuits to
no upstream and no counts, and a failing statuses query degrades the dirty
count to zero. -/
theorem status_of_never_fails (env : GitEnv) (wt : Worktree) :
    (env.openRepo wt.path = none → get_worktree_status env wt = {}) ∧
    (wt.detached = true →
      (get_worktree_status env wt).upstream = none ∧
        (get_worktree_status env wt).ahead = none ∧
        (get_worktree_status env wt).behind = none) ∧
    (∀ repo, env.openRepo wt.path = some repo → repo.statuses = none →
      (get_worktree_status env wt).dirty_count = 0) := by
  refine ⟨fun h => ?_, fun hd => ?_, fun repo h hs => ?_⟩
  · simp [get_worktree_status, h]
  · cases hrepo : env.openRepo wt.path with
    | none => simp [get_worktree_status, hrepo]
    | some r => simp [get_worktree_status, hrepo, get_ahead_behind, hd]
  · simp [get_worktree_status, h, get_dirty_count, hs]

/-- Witness for C7: an unopenable repository, then a detached worktree with
a failing statuses query. -/
theorem status_of_never_fails_witness :
    get_worktree_status egGitNone wtDetached = {} ∧
      ((get_worktree_status egGitErr wtDetached).upstream = none ∧
        (get_worktree_status egGitErr wtDetached).ahead = none ∧
        (get_worktree_status egGitErr wtDetached).behind = none) ∧
      (get_worktree_status egGitErr wtDetached).dirty_count = 0 :=
  ⟨(status_of_never_fails egGitNone wtDetached).1 rfl,
   (status_of_never_fails egGitErr wtDetached).2.1 rfl,
   (status_of_never_fails egGitErr wtDetached).2.2 egRepoErr rfl rfl⟩

/-- C10: a worktree whose path cannot be opened as a repository is reported
clean, so it passes the dirty-guard of single remove (removed without
`--force`) and is in the batch clean run's actually-removed set whenever it
is a candidate. -/
theorem unreadable_worktree_passes_dirty_guard (git : GitEnv) (wt : Worktree)
    (h : git.openRepo wt.path = none) :
    is_worktree_dirty git wt = false ∧
    (∀ (env : RmEnv) (opts : RmOptions),
      env.git = git →
      find_worktree env.worktrees opts.name = some wt →
      wt.path ≠ env.currentPath → wt.path ≠ env.repoRoot →
      opts.force = false → opts.yes = true →
      env.removeOk wt.path = true → opts.delete_branch = false →
      rm_execute env opts = .removed none) ∧
    (∀ (env : CleanEnv) (opts : CleanOptions),
      env.git = git →
      wt ∈ clean_candidates env opts →
      wt ∈ (clean_candidates env opts).filter
        (fun w => !is_worktree_dirty env.git w)) := by
  have hdirty : is_worktree_dirty git wt = false := by
    simp [is_worktree_dirty, h]
  refine ⟨hdirty, ?_, ?_⟩
  · intro env opts hg hfind hcur hroot hforce hyes hrm hdb
    simp [rm_execute, hfind, hcur, hroot, hg, hdirty, hforce, hyes, hrm, hdb]
  · intro env opts hg hmem
    rw [List.mem_filter]
    exact ⟨hmem, by simp [hg, hdirty]⟩

/-- Witness for C10 at a concrete unreadable worktree. -/
theorem unreadable_worktree_passes_dirty_guard_witness :
    egGitNone.openRepo wtFeatX.path = none ∧
      is_worktree_dirty egGitNone wtFeatX = false ∧
      rm_execute egRmEnv egRmOpts = .removed none ∧
      wtFeatX ∈ (clean_candidates egCleanEnv egMergedOpts).filter
        (fun w => !is_worktree_dirty egCleanEnv.git w) :=
  ⟨rfl,
   (unreadable_worktree_passes_dirty_guard egGitNone wtFeatX rfl).1,
   (unreadable_worktree_passes_dirty_guard egGitNone wtFeatX rfl).2.1
     egRmEnv egRmOpts rfl (by decide) (by decide) (by decide) rfl rfl rfl rfl,
   (unreadable_worktree_passes_dirty_guard egGitNone wtFeatX rfl).2.2
     egCleanEnv egMergedOpts rfl (by decide)⟩

/-- C2: with stdin non-interactive and no `--yes`, batch clean exits with an
error before removing anything (`needYes`), but single remove silently
proceeds past the confirmation point and removes the worktree — the code of
`rm.rs` has no non-interactive guard, contradicting the stated design. -/
theorem rm_noninteractive_no_yes_proceeds :
    rm_execute egRmEnv egRmOptsNoYes = .removed none ∧
      clean_execute egCleanEnv egMergedOptsNoYes = .needYes [wtFeatX] := by
  decide

/-- C3: when a batch clean run reaches the removal phase, the displayed list
is the full candidate set, every dirty candidate is displayed but excluded
from the actually-removed set, and the reported count is the number of
successful backend removals of the non-dirty candidates. -/
theorem clean_dirty_excluded_count (env : CleanEnv) (opts : CleanOptions)
    (shown : List Worktree) (removed : Nat)
    (h : clean_execute env opts = .done shown removed) :
    shown = clean_candidates env opts ∧
    (∀ wt ∈ clean_candidates env opts, is_worktree_dirty env.git wt = true →
      wt ∈ shown ∧ wt ∉ clean_removed_set env opts) ∧
    removed = (clean_removed_set env opts).length := by
  have hmain : shown = clean_candidates env opts ∧
      removed = ((clean_candidates env opts).filter
        (fun wt => !is_worktree_dirty env.git wt)).countP
          (fun wt => env.removeOk wt.path) := by
    unfold clean_execute at h
    dsimp only at h
    split at h
    · exact absurd h (by simp)
    · split at h
      · exact absurd h (by simp)
      · split at h
        · exact absurd h (by simp)
        · split at h
          · split at h
            · injection h with h1 h2
              exact ⟨h1.symm, h2.symm⟩
            · exact absurd h (by simp)
          · split at h
            · exact absurd h (by simp)
            · injection h with h1 h2
              exact ⟨h1.symm, h2.symm⟩
  refine ⟨hmain.1, fun wt hmem hd => ⟨hmain.1 ▸ hmem, fun hr => ?_⟩, ?_⟩
  · have := (List.mem_filter.mp (List.mem_filter.mp hr).1).2
    simp [hd] at this
  · rw [hmain.2, clean_removed_set, List.countP_eq_length_filter]

/-- Witness for C3: three candidates, one dirty, backend succeeding —
exactly two removals reported. -/
theorem clean_dirty_excluded_count_witness :
    clean_execute egCleanEnv3 egMergedOpts = .done [wtA, wtB, wtC] 2 ∧
      ([wtA, wtB, wtC] = clean_candidates egCleanEnv3 egMergedOpts ∧
        (∀ wt ∈ clean_candidates egCleanEnv3 egMergedOpts,
          is_worktree_dirty egCleanEnv3.git wt = true →
            wt ∈ [wtA, wtB, wtC] ∧
              wt ∉ clean_removed_set egCleanEnv3 egMergedOpts) ∧
        2 = (clean_removed_set egCleanEnv3 egMergedOpts).length) :=
  ⟨by decide,
   clean_dirty_excluded_count egCleanEnv3 egMergedOpts [wtA, wtB, wtC] 2
     (by decide)⟩

/-! ## Slug lemmas (C9) -/

/-- The slug map always lands in the kept character class. -/
theorem keptChar_slugChar (c : Char) : keptChar (slugChar c) = true := by
  by_cases h : keptChar c = true
  · simp [slugChar, h]
  · simp only [slugChar, h, if_false, Bool.false_eq_true, if_neg]
    decide

/-- Membership is preserved backwards through `trimDash`. -/
theorem mem_trimDash {c : Char} {l : List Char} (h : c ∈ trimDash l) :
    c ∈ l := by
  unfold trimDash at h
  rw [List.mem_reverse] at h
  have h1 := List.dropWhile_subset (fun c => c = '-') h
  rw [List.mem_reverse] at h1
  exact List.dropWhile_subset (fun c => c = '-') h1

/-- The head of `dropWhile p` never satisfies `p`. -/
theorem head?_dropWhile {p : Char → Bool} {l : List Char} {a : Char}
    (h : (l.dropWhile p).head? = some a) : p a = false := by
  induction l with
  | nil => simp [List.dropWhile] at h
  | cons x xs ih =>
    rw [List.dropWhile_cons] at h
    split at h
    · exact ih h
    · simp only [List.head?_cons, Option.some.injEq] at h
      subst h
      simp_all

/-- A nonempty `dropWhile` keeps the original last element. -/
theorem getLast?_dropWhile {p : Char → Bool} {l : List Char}
    (h : l.dropWhile p ≠ []) : (l.dropWhile p).getLast? = l.getLast? := by
  induction l with
  | nil => simp [List.dropWhile] at h
  | cons x xs ih =>
    by_cases hp : p x = true
    · rw [List.dropWhile_cons, if_pos hp] at h ⊢
      have hxs : xs ≠ [] := by
        intro he
        rw [he] at h
        simp [List.dropWhile] at h
      rw [ih h]
      cases xs with
      | nil => exact absurd rfl hxs
      | cons y ys => rw [List.getLast?_cons_cons]
    · rw [List.dropWhile_cons, if_neg hp]

/-- `dropWhile` is the identity when the head does not satisfy `p`. -/
theorem dropWhile_head_not {p : Char → Bool} {l : List Char}
    (h : ∀ a, l.head? = some a → p a = false) : l.dropWhile p = l := by
  cases l with
  | nil => rfl
  | cons x xs =>
    rw [List.dropWhile_cons, if_neg]
    simp [h x rfl]

/-- The trimmed list never ends with a dash. -/
theorem trimDash_getLast? (l : List Char) :
    (trimDash l).getLast? ≠ some '-' := by
  unfold trimDash
  rw [List.getLast?_reverse]
  intro hc
  have := head?_dropWhile hc
  simp at this

/-- The trimmed list never starts with a dash. -/
theorem trimDash_head? (l : List Char) : (trimDash l).head? ≠ some '-' := by
  unfold trimDash
  rw [List.head?_reverse]
  by_cases hnil :
      (l.dropWhile (fun c => c = '-')).reverse.dropWhile (fun c => c = '-') = []
  · rw [hnil]
    simp
  · rw [getLast?_dropWhile hnil, List.getLast?_reverse]
    intro hc
    have := head?_dropWhile hc
    simp at this

/-- `trimDash` is the identity on lists with no dash at either end. -/
theorem trimDash_no_dash_ends (l : List Char) (h1 : l.head? ≠ some '-')
    (h2 : l.getLast? ≠ some '-') : trimDash l = l := by
  unfold trimDash
  rw [dropWhile_head_not (fun a ha => ?_), dropWhile_head_not (fun a ha => ?_),
    List.reverse_reverse]
  · simp only [decide_eq_false_iff_not]
    intro he
    exact h1 (he ▸ ha)
  · rw [List.head?_reverse] at ha
    by_cases hnil : l.dropWhile (fun c => decide (c = '-')) = []
    · rw [hnil] at ha
      simp at ha
    · rw [getLast?_dropWhile hnil] at ha
      simp only [decide_eq_false_iff_not]
      intro he
      exact h2 (he ▸ ha)

/-- Mapping a function that fixes every element of a list is the identity. -/
theorem map_fix {f : Char → Char} : ∀ l : List Char,
    (∀ a ∈ l, f a = a) → l.map f = l
  | [], _ => rfl
  | x :: xs, h => by
    rw [List.map_cons, h x (by simp), map_fix xs (fun a ha => h a (by simp [ha]))]

/-- C9: slugification is idempotent; its output contains only kept
characters (alphanumeric, dash, underscore) with no leading or trailing
dash; and every character outside the kept class is mapped to a dash. -/
theorem slug_from_branch_spec (x : String) :
    slug_from_branch (slug_from_branch x) = slug_from_branch x ∧
    (∀ c ∈ (slug_from_branch x).data, keptChar c = true) ∧
    (slug_from_branch x).data.head? ≠ some '-' ∧
    (slug_from_branch x).data.getLast? ≠ some '-' ∧
    (∀ c : Char, keptChar c = false → slugChar c = '-') := by
  have hmem : ∀ c ∈ (slug_from_branch x).data, keptChar c = true := by
    intro c hc
    have hc' : c ∈ List.map slugChar x.data := mem_trimDash hc
    rw [List.mem_map] at hc'
    obtain ⟨d, _, hd⟩ := hc'
    rw [← hd]
    exact keptChar_slugChar d
  have hhead : (slug_from_branch x).data.head? ≠ some '-' := trimDash_head? _
  have hlast : (slug_from_branch x).data.getLast? ≠ some '-' :=
    trimDash_getLast? _
  refine ⟨?_, hmem, hhead, hlast, fun c hc => by simp [slugChar, hc]⟩
  show (⟨trimDash ((slug_from_branch x).data.map slugChar)⟩ : String) =
    slug_from_branch x
  rw [map_fix _ (fun a ha => by simp [slugChar, hmem a ha]),
    trimDash_no_dash_ends _ hhead hlast]

/-- Witness for C9 at the branch name `feat/login`. -/
theorem slug_from_branch_spec_witness :
    slug_from_branch (slug_from_branch "feat/login") =
        slug_from_branch "feat/login" ∧
      keptChar 'f' = true ∧ slugChar '/' = '-' :=
  ⟨(slug_from_branch_spec "feat/login").1,
   (slug_from_branch_spec "feat/login").2.1 'f' (by decide),
   (slug_from_branch_spec "feat/login").2.2.2.2 '/' (by decide)⟩

/-! ## Lookup (C6) -/

/-- A worktree whose directory name is `name` but whose branch is not. -/
def wtPathName : Worktree :=
  ⟨"/w/name", "hp", some "refs/heads/other", some "other", false, false, false⟩

/-- A worktree whose branch short name is `name`. -/
def wtBranchName : Worktree :=
  ⟨"/w/b", "hq", some "refs/heads/name", some "name", false, false, false⟩

/-- C6 counterexample: `find_worktree` returns the earlier worktree whose
directory name matches, even though a later worktree's `branch_short`
matches — branch matching does not take priority across the list. -/
theorem find_worktree_no_branch_priority :
    find_worktree [wtPathName, wtBranchName] "name" = some wtPathName ∧
      wtPathName.branch_short ≠ some "name" ∧
      fileName wtPathName.path = some "name" ∧
      wtBranchName.branch_short = some "name" := by
  decide

/-- C6 amended: `find_worktree` is a single pass returning the first
worktree whose `branch_short` or final path segment exactly equals the
name (per element the branch is checked before the path, but an earlier
path match beats a later branch match); it returns `none` exactly when no
worktree matches either way — no fuzzy or partial matching. -/
theorem find_worktree_first_match (wts : List Worktree) (name : String) :
    (∀ wt, find_worktree wts name = some wt →
      (wt.branch_short = some name ∨ fileName wt.path = some name) ∧
      ∃ pre post, wts = pre ++ wt :: post ∧
        ∀ w ∈ pre, w.branch_short ≠ some name ∧ fileName w.path ≠ some name) ∧
    (find_worktree wts name = none ↔
      ∀ wt ∈ wts, wt.branch_short ≠ some name ∧ fileName wt.path ≠ some name) := by
  constructor
  · intro wt h
    unfold find_worktree at h
    rw [List.find?_eq_some] at h
    obtain ⟨hp, pre, post, heq, hpre⟩ := h
    refine ⟨by simpa using hp, pre, post, heq, fun w hw => ?_⟩
    have := hpre w hw
    simp only [Bool.not_eq_eq_eq_not, Bool.not_true, decide_eq_false_iff_not,
      not_or] at this
    exact this
  · unfold find_worktree
    rw [List.find?_eq_none]
    constructor
    · intro h wt hw
      have := h wt hw
      simp only [decide_eq_true_eq, not_or] at this
      exact this
    · intro h wt hw
      have := h wt hw
      simp only [decide_eq_true_eq, not_or]
      exact this

/-- Witness for the amended C6 at the counterexample list. -/
theorem find_worktree_first_match_witness :
    (wtPathName.branch_short = some "name" ∨
        fileName wtPathName.path = some "name") ∧
      ∃ pre post, [wtPathName, wtBranchName] = pre ++ wtPathName :: post ∧
        ∀ w ∈ pre, w.branch_short ≠ some "name" ∧ fileName w.path ≠ some "name" :=
  (find_worktree_first_match [wtPathName, wtBranchName] "name").1 wtPathName
    (by decide)

/-! ## Parsing lemmas (C5) -/

/-- One record built by folding its lines into a fresh builder. -/
def buildRecord (r : List String) : Option Worktree :=
  (r.foldl applyLine {}).build

/-- Lay out a record sequence as a porcelain line stream: records separated
by a single blank line, no trailing blank line after the last record. -/
def encodeRecords : List (List String) → List String
  | [] => []
  | [r] => r
  | r :: rest => r ++ "" :: encodeRecords rest

/-- Whether a line carries the `worktree` (path) key. -/
def isWorktreeLine (l : String) : Bool :=
  match splitOnce l with
  | some kv => kv.1 = "worktree"
  | none => false

/-- Flush of the pending builder at end of input. -/
def flushBuilder : Option WorktreeBuilder → List Worktree
  | some b => b.build.toList
  | none => []

/-- The parser as fold state plus final flush. -/
theorem parse_eq (ls : List String) :
    parse_worktree_list ls =
      (ls.foldl parseStep ([], none)).1 ++
        flushBuilder (ls.foldl parseStep ([], none)).2 := by
  cases h : (ls.foldl parseStep ([], none)).2 with
  | none => simp [parse_worktree_list, h, flushBuilder]
  | some b => simp [parse_worktree_list, h, flushBuilder]

/-- Accumulated worktrees thread through `parseStep` by appending. -/
theorem foldl_parseStep_append (ls : List String) (acc : List Worktree)
    (cur : Option WorktreeBuilder) :
    ls.foldl parseStep (acc, cur) =
      (acc ++ (ls.foldl parseStep ([], cur)).1,
        (ls.foldl parseStep ([], cur)).2) := by
  induction ls generalizing acc cur with
  | nil => simp
  | cons l ls ih =>
    rw [List.foldl_cons, List.foldl_cons]
    by_cases hl : l = ""
    · subst hl
      cases cur with
      | none =>
        rw [show parseStep (acc, none) "" = (acc, none) from rfl,
          show parseStep (([] : List Worktree), none) "" = ([], none) from rfl]
        exact ih acc none
      | some b =>
        rw [show parseStep (acc, some b) "" = (acc ++ b.build.toList, none) from
            rfl,
          show parseStep (([] : List Worktree), some b) "" =
            (b.build.toList, none) from rfl,
          ih (acc ++ b.build.toList) none, ih b.build.toList none,
          List.append_assoc]
    · rw [show parseStep (acc, cur) l =
          (acc, some (applyLine (cur.getD {}) l)) from by simp [parseStep, hl],
        show parseStep (([] : List Worktree), cur) l =
          ([], some (applyLine (cur.getD {}) l)) from by simp [parseStep, hl]]
      exact ih acc _

/-- Over blank-free lines, `parseStep` only updates the builder. -/
theorem foldl_parseStep_record (r : List String) (acc : List Worktree)
    (b : WorktreeBuilder) (h : ∀ l ∈ r, l ≠ "") :
    r.foldl parseStep (acc, some b) = (acc, some (r.foldl applyLine b)) := by
  induction r generalizing b with
  | nil => simp
  | cons l ls ih =>
    have hl : l ≠ "" := h l (by simp)
    rw [List.foldl_cons,
      show parseStep (acc, some b) l = (acc, some (applyLine b l)) from by
        simp [parseStep, hl],
      ih _ (fun x hx => h x (by simp [hx])), List.foldl_cons]

/-- A nonempty blank-free record starting with no pending builder produces
exactly its folded builder. -/
theorem foldl_parseStep_record_none (r : List String) (acc : List Worktree)
    (h : ∀ l ∈ r, l ≠ "") (hne : r ≠ []) :
    r.foldl parseStep (acc, none) = (acc, some (r.foldl applyLine {})) := by
  cases r with
  | nil => exact absurd rfl hne
  | cons l ls =>
    have hl : l ≠ "" := h l (by simp)
    rw [List.foldl_cons,
      show parseStep (acc, none) l = (acc, some (applyLine {} l)) from by
        simp [parseStep, hl],
      foldl_parseStep_record ls acc _ (fun x hx => h x (by simp [hx])),
      List.foldl_cons]

/-- A key-value line never equals the bare flag line. -/
theorem splitOnce_ne_bare {l : String} {kv : String × String}
    (hs : splitOnce l = some kv) : l ≠ "bare" := by
  intro he
  subst he
  have : splitOnce "bare" = none := by decide
  rw [this] at hs
  exact Option.noConfusion hs

/-- Effect of one line on the builder's `bare` flag. -/
theorem applyLine_bare (b : WorktreeBuilder) (l : String) :
    (applyLine b l).bare = (b.bare || l = "bare") := by
  cases hs : splitOnce l with
  | some kv =>
    have hl : l ≠ "bare" := splitOnce_ne_bare hs
    obtain ⟨k, v⟩ := kv
    simp only [applyLine, hs]
    split_ifs <;> simp [hl]
  | none =>
    simp only [applyLine, hs]
    split_ifs <;> simp_all

/-- Effect of one line on the builder's path presence. -/
theorem applyLine_path (b : WorktreeBuilder) (l : String) :
    (applyLine b l).path.isSome = (b.path.isSome || isWorktreeLine l) := by
  cases hs : splitOnce l with
  | some kv =>
    obtain ⟨k, v⟩ := kv
    simp only [applyLine, isWorktreeLine, hs]
    split_ifs <;> simp_all
  | none =>
    simp only [applyLine, isWorktreeLine, hs]
    split_ifs <;> simp

/-- The folded builder's `bare` flag records whether some line is `bare`. -/
theorem foldl_applyLine_bare (r : List String) (b : WorktreeBuilder) :
    (r.foldl applyLine b).bare = (b.bare || r.any (fun l => l = "bare")) := by
  induction r generalizing b with
  | nil => simp
  | cons l ls ih =>
    rw [List.foldl_cons, ih, applyLine_bare, List.any_cons, Bool.or_assoc]

/-- The folded builder has a path exactly when some line carries the
`worktree` key. -/
theorem foldl_applyLine_path (r : List String) (b : WorktreeBuilder) :
    (r.foldl applyLine b).path.isSome =
      (b.path.isSome || r.any isWorktreeLine) := by
  induction r generalizing b with
  | nil => simp
  | cons l ls ih =>
    rw [List.foldl_cons, ih, applyLine_path, List.any_cons, Bool.or_assoc]

/-- `build` succeeds exactly on non-bare builders with a path. -/
theorem build_isSome (b : WorktreeBuilder) :
    (b.build).isSome = (b.path.isSome && !b.bare) := by
  unfold WorktreeBuilder.build
  cases b.path with
  | none => rfl
  | some p => cases hb : b.bare <;> simp [hb]

/-- Well-formed record sequences parse to their per-record builds, in
order. -/
theorem parse_encodeRecords (records : List (List String))
    (h : ∀ r ∈ records, r ≠ [] ∧ ∀ line ∈ r, line ≠ "") :
    parse_worktree_list (encodeRecords records) =
      records.filterMap buildRecord := by
  induction records with
  | nil => rfl
  | cons r rest ih =>
    have hr := h r (by simp)
    cases rest with
    | nil =>
      rw [show encodeRecords [r] = r from rfl, parse_eq,
        foldl_parseStep_record_none r [] hr.2 hr.1]
      cases hb : (r.foldl applyLine {}).build <;>
        simp [flushBuilder, List.filterMap_cons, buildRecord, hb]
    | cons r2 rest2 =>
      have hrest := fun x hx => h x (List.mem_cons_of_mem _ hx)
      rw [show encodeRecords (r :: r2 :: rest2) =
          r ++ "" :: encodeRecords (r2 :: rest2) from rfl, parse_eq,
        List.foldl_append, foldl_parseStep_record_none r [] hr.2 hr.1,
        List.foldl_cons,
        show parseStep (([] : List Worktree), some (r.foldl applyLine {})) "" =
          ((r.foldl applyLine {}).build.toList, none) from rfl,
        foldl_parseStep_append _ _ none, List.append_assoc, ← parse_eq,
        ih hrest]
      cases hb : (r.foldl applyLine {}).build <;>
        simp [List.filterMap_cons, buildRecord, hb]

/-- C5: encoding well-formed records (nonempty, blank-free) as a porcelain
stream with no trailing blank line, the parser yields exactly one worktree
per record that has a path and is not bare, in the original record order;
records lacking the `worktree` key or carrying the `bare` flag are dropped;
any unrecognized line leaves the builder unchanged. -/
theorem parse_worktree_list_records (records : List (List String))
    (h : ∀ r ∈ records, r ≠ [] ∧ ∀ line ∈ r, line ≠ "") :
    parse_worktree_list (encodeRecords records) =
      records.filterMap buildRecord ∧
    (∀ r ∈ records,
      (buildRecord r).isSome = true ↔
        ((∃ l ∈ r, isWorktreeLine l = true) ∧ "bare" ∉ r)) ∧
    (∀ (b : WorktreeBuilder) (line : String),
      (∀ kv, splitOnce line = some kv →
        kv.1 ∉ (["worktree", "HEAD", "branch", "detached", "locked",
          "prunable"] : List String)) →
      (splitOnce line = none →
        line ∉ (["detached", "locked", "prunable", "bare"] : List String)) →
      applyLine b line = b) := by
  refine ⟨parse_encodeRecords records h, ?_, ?_⟩
  · intro r hr
    unfold buildRecord
    rw [build_isSome, foldl_applyLine_path, foldl_applyLine_bare]
    simp only [List.any_eq_true, decide_eq_true_eq, Option.isSome_none,
      Bool.false_or, Bool.and_eq_true, Bool.not_eq_true', Bool.or_eq_false_iff,
      List.any_eq_false, decide_eq_false_iff_not]
    constructor
    · rintro ⟨⟨x, hx, hw⟩, hbare⟩
      exact ⟨⟨x, hx, hw⟩, fun hc => hbare "bare" hc rfl⟩
    · rintro ⟨⟨x, hx, hw⟩, hbare⟩
      exact ⟨⟨x, hx, hw⟩, fun y hy he => hbare (he ▸ hy)⟩
  · intro b line h1 h2
    cases hs : splitOnce line with
    | some kv =>
      have := h1 kv hs
      simp only [List.mem_cons, List.mem_singleton, not_or] at this
      obtain ⟨k, v⟩ := kv
      simp only [applyLine, hs]
      simp_all
    | none =>
      have := h2 hs
      simp only [List.mem_cons, List.mem_singleton, not_or] at this
      simp only [applyLine, hs]
      simp_all

/-- Example porcelain records: a normal record, a bare record, a record
lacking the path key, and a trailing detached record. -/
def egRecords : List (List String) :=
  [["worktree /repo", "HEAD abc", "branch refs/heads/main"],
   ["worktree /bare.git", "bare"],
   ["HEAD nopath"],
   ["worktree /ws/det", "HEAD ddd", "detached"]]

/-- Witness for C5: the example records are well formed and parse to their
per-record builds (the bare and pathless records dropped, the unterminated
trailing record kept). -/
theorem parse_worktree_list_records_witness :
    (∀ r ∈ egRecords, r ≠ [] ∧ ∀ line ∈ r, line ≠ "") ∧
      parse_worktree_list (encodeRecords egRecords) =
        egRecords.filterMap buildRecord :=
  ⟨by decide, (parse_worktree_list_records egRecords (by decide)).1⟩

/-! ## Dashboard ordering lemmas (C8) -/

/-- Lexicographic (code-point ascending) order on character lists, the
reference description of "display name, lexicographic ascending". -/
def listLexLe : List Char → List Char → Bool
  | [], _ => true
  | _ :: _, [] => false
  | a :: as_, b :: bs => a.toNat < b.toNat || (a == b && listLexLe as_ bs)

/-- The specification's three-key dashboard order: current-directory
worktree first, then dirty before clean, then name ascending. -/
def keyLe (cur : String) (a b : Worktree × WorktreeStatus) : Bool :=
  if (a.1.path == cur) ≠ (b.1.path == cur) then a.1.path == cur
  else if a.2.is_dirty ≠ b.2.is_dirty then a.2.is_dirty
  else listLexLe a.1.name.data b.1.name.data

/-- Characters with equal code points are equal. -/
theorem char_toNat_inj {a b : Char} (h : a.toNat = b.toNat) : a = b := by
  rw [← Char.ofNat_toNat a, ← Char.ofNat_toNat b, h]

/-- Lexicographic order is total. -/
theorem listLexLe_total : ∀ as_ bs : List Char,
    listLexLe as_ bs = true ∨ listLexLe bs as_ = true
  | [], _ => .inl rfl
  | _ :: _, [] => .inr rfl
  | a :: as_, b :: bs => by
    rcases Nat.lt_trichotomy a.toNat b.toNat with h | h | h
    · left
      simp [listLexLe, h]
    · have hab : a = b := char_toNat_inj h
      subst hab
      rcases listLexLe_total as_ bs with hr | hr
      · left
        simp [listLexLe, hr]
      · right
        simp [listLexLe, hr]
    · right
      simp [listLexLe, h]

/-- Lexicographic order is transitive. -/
theorem listLexLe_trans : ∀ as_ bs cs : List Char,
    listLexLe as_ bs = true → listLexLe bs cs = true →
      listLexLe as_ cs = true
  | [], _, _, _, _ => rfl
  | a :: as_, [], cs, h1, _ => by simp [listLexLe] at h1
  | a :: as_, b :: bs, [], _, h2 => by simp [listLexLe] at h2
  | a :: as_, b :: bs, c :: cs, h1, h2 => by
    simp only [listLexLe, Bool.or_eq_true, Bool.and_eq_true,
      decide_eq_true_eq, beq_iff_eq] at h1 h2 ⊢
    rcases h1 with h1 | ⟨rfl, h1⟩
    · rcases h2 with h2 | ⟨rfl, _⟩
      · exact .inl (Nat.lt_trans h1 h2)
      · exact .inl h1
    · rcases h2 with h2 | ⟨rfl, h2⟩
      · exact .inl h2
      · exact .inr ⟨rfl, listLexLe_trans as_ bs cs h1 h2⟩

/-- Lexicographic order is antisymmetric. -/
theorem listLexLe_antisymm : ∀ as_ bs : List Char,
    listLexLe as_ bs = true → listLexLe bs as_ = true → as_ = bs
  | [], [], _, _ => rfl
  | [], _ :: _, _, h2 => by simp [listLexLe] at h2
  | _ :: _, [], h1, _ => by simp [listLexLe] at h1
  | a :: as_, b :: bs, h1, h2 => by
    simp only [listLexLe, Bool.or_eq_true, Bool.and_eq_true,
      decide_eq_true_eq, beq_iff_eq] at h1 h2
    rcases h1 with h1 | ⟨rfl, h1⟩
    · rcases h2 with h2 | ⟨rfl, _⟩
      · exact absurd (Nat.lt_trans h1 h2) (Nat.lt_irrefl _)
      · exact absurd h1 (Nat.lt_irrefl _)
    · rcases h2 with h2 | ⟨_, h2⟩
      · exact absurd h2 (Nat.lt_irrefl _)
      · rw [listLexLe_antisymm as_ bs h1 h2]

/-- The Rust comparator's string leg agrees with lexicographic order. -/
theorem strCmpL_ne_gt_iff : ∀ as_ bs : List Char,
    strCmpL as_ bs ≠ .gt ↔ listLexLe as_ bs = true
  | [], [] => by simp [strCmpL, listLexLe]
  | [], _ :: _ => by simp [strCmpL, listLexLe]
  | _ :: _, [] => by simp [strCmpL, listLexLe]
  | a :: as_, b :: bs => by
    rcases Nat.lt_trichotomy a.toNat b.toNat with h | h | h
    · have hne : a ≠ b := fun he => by simp [he] at h
      simp [strCmpL, charCmp, listLexLe, h, Nat.ne_of_lt h, hne]
    · have hab : a = b := char_toNat_inj h
      subst hab
      simp [strCmpL, charCmp, listLexLe, strCmpL_ne_gt_iff as_ bs]
    · have hne : a ≠ b := fun he => by simp [he] at h
      have hnlt : ¬a.toNat < b.toNat := Nat.not_lt.mpr (Nat.le_of_lt h)
      simp [strCmpL, charCmp, listLexLe, hnlt, Nat.ne_of_gt h, hne]

/-- The Rust comparator accepts exactly the three-key order. -/
theorem cmpWorktree_ne_gt_iff (cur : String) (a b : Worktree × WorktreeStatus) :
    cmpWorktree cur a b ≠ .gt ↔ keyLe cur a b = true := by
  unfold cmpWorktree keyLe
  cases hac : (a.1.path == cur) <;> cases hbc : (b.1.path == cur) <;>
    cases had : a.2.is_dirty <;> cases hbd : b.2.is_dirty <;>
      simp [boolCmp, strCmp, strCmpL_ne_gt_iff]

/-- The three-key order is total. -/
theorem keyLe_total (cur : String) (a b : Worktree × WorktreeStatus) :
    keyLe cur a b = true ∨ keyLe cur b a = true := by
  unfold keyLe
  cases hac : (a.1.path == cur) <;> cases hbc : (b.1.path == cur) <;>
    cases had : a.2.is_dirty <;> cases hbd : b.2.is_dirty <;>
      simp <;> exact listLexLe_total _ _

/-- The three-key order is transitive. -/
theorem keyLe_trans (cur : String) (a b c : Worktree × WorktreeStatus)
    (h1 : keyLe cur a b = true) (h2 : keyLe cur b c = true) :
    keyLe cur a c = true := by
  unfold keyLe at h1 h2 ⊢
  cases hac : (a.1.path == cur) <;> cases hbc : (b.1.path == cur) <;>
    cases hcc : (c.1.path == cur) <;> cases had : a.2.is_dirty <;>
      cases hbd : b.2.is_dirty <;> cases hcd : c.2.is_dirty <;>
        simp_all <;> exact listLexLe_trans _ _ _ h1 h2

/-- On distinct display names the three-key order is strict in exactly one
direction. -/
theorem keyLe_antisymm (cur : String) (a b : Worktree × WorktreeStatus)
    (h : a.1.name ≠ b.1.name) :
    keyLe cur a b = true ↔ ¬keyLe cur b a = true := by
  constructor
  · intro hab hba
    unfold keyLe at hab hba
    cases hac : (a.1.path == cur) <;> cases hbc : (b.1.path == cur) <;>
      cases had : a.2.is_dirty <;> cases hbd : b.2.is_dirty <;> simp_all <;>
        exact h (String.ext (listLexLe_antisymm _ _ hab hba))
  · intro hnba
    rcases keyLe_total cur a b with hab | hba
    · exact hab
    · exact absurd hba hnba

/-- C8: the dashboard sort permutes its input into a list pairwise ordered
by the three keys (current first, dirty before clean, name ascending), and
that comparison is a total order — total, transitive, and on distinct
names antisymmetric. -/
theorem sort_worktrees_ordering (cur : String)
    (l : List (Worktree × WorktreeStatus)) :
    (sort_worktrees l cur).Perm l ∧
    (sort_worktrees l cur).Pairwise (fun a b => keyLe cur a b = true) ∧
    (∀ a b : Worktree × WorktreeStatus,
      keyLe cur a b = true ∨ keyLe cur b a = true) ∧
    (∀ a b c : Worktree × WorktreeStatus, keyLe cur a b = true →
      keyLe cur b c = true → keyLe cur a c = true) ∧
    (∀ a b : Worktree × WorktreeStatus, a.1.name ≠ b.1.name →
      (keyLe cur a b = true ↔ ¬keyLe cur b a = true)) := by
  have hle : ∀ a b : Worktree × WorktreeStatus,
      decide (cmpWorktree cur a b ≠ .gt) = true ↔ keyLe cur a b = true := by
    intro a b
    rw [decide_eq_true_iff]
    exact cmpWorktree_ne_gt_iff cur a b
  have htrans : ∀ a b c : Worktree × WorktreeStatus,
      decide (cmpWorktree cur a b ≠ .gt) = true →
      decide (cmpWorktree cur b c ≠ .gt) = true →
      decide (cmpWorktree cur a c ≠ .gt) = true := fun a b c h1 h2 =>
    (hle a c).mpr (keyLe_trans cur a b c ((hle a b).mp h1) ((hle b c).mp h2))
  have htotal : ∀ a b : Worktree × WorktreeStatus,
      (decide (cmpWorktree cur a b ≠ .gt) ||
        decide (cmpWorktree cur b a ≠ .gt)) = true := by
    intro a b
    rcases keyLe_total cur a b with h | h
    · simp [(hle a b).mpr h]
    · simp [(hle b a).mpr h]
  refine ⟨List.mergeSort_perm l _, ?_, keyLe_total cur, keyLe_trans cur,
    keyLe_antisymm cur⟩
  exact (List.sorted_mergeSort htrans htotal l).imp fun h => (hle _ _).mp h

/-- Clean example status. -/
def stClean : WorktreeStatus := {}

/-- Dirty example statuses. -/
def stDirty1 : WorktreeStatus := { dirty_count := 1 }

/-- A second dirty example status. -/
def stDirty2 : WorktreeStatus := { dirty_count := 2 }

/-- Four-element dashboard fixture mixing the current worktree, dirty and
clean entries. -/
def egPairs : List (Worktree × WorktreeStatus) :=
  [(wtC, stClean), (wtB, stDirty1), (wtMain, stClean), (wtA, stDirty2)]

/-- Witness for C8 on the four-element fixture. -/
theorem sort_worktrees_ordering_witness :
    (sort_worktrees egPairs "/repo").Perm egPairs ∧
      (sort_worktrees egPairs "/repo").Pairwise
        (fun a b => keyLe "/repo" a b = true) ∧
      ((wtA, stDirty2).1.name ≠ (wtB, stDirty1).1.name →
        (keyLe "/repo" (wtA, stDirty2) (wtB, stDirty1) = true ↔
          ¬keyLe "/repo" (wtB, stDirty1) (wtA, stDirty2) = true)) :=
  ⟨(sort_worktrees_ordering "/repo" egPairs).1,
   (sort_worktrees_ordering "/repo" egPairs).2.1,
   (sort_worktrees_ordering "/repo" egPairs).2.2.2.2 (wtA, stDirty2)
     (wtB, stDirty1)⟩

end Workty
